import Mathlib

/-!
Verification of the core of the weather-cache-api repository: the TTL
cache service (src/services/cache.js) and the exponential-backoff retry
utility (src/utils/retry.js), shallowly embedded in Lean.

Time is modelled as an `Int` (milliseconds, the value of `Date.now()`),
passed explicitly to each operation.  The JavaScript `Map` backing the
cache is modelled as an association list in which the first binding for
a key is the authoritative one, matching `Map` lookup; `Map.set` on an
existing key replaces that binding in place, otherwise it appends.
-/

namespace WeatherCache

/-- A cache entry as stored by `CacheService.set`: the payload `data`
and the absolute expiration instant `expiresAt = now + ttlMs`
(cache.js line 38-39). -/
structure Entry (α : Type) where
  data : α
  expiresAt : Int
  deriving Repr, DecidableEq

/-- The backing store `this.cache`, a JavaScript `Map` keyed by strings. -/
abbrev Cache (α : Type) : Type := List (String × Entry α)

/-- `Map.prototype.get`: the first binding for the key, if any. -/
def mapGet {α : Type} : Cache α → String → Option (Entry α)
  | [], _ => none
  | (k, e) :: rest, key => if k = key then some e else mapGet rest key

/-- `Map.prototype.set`: replace the first binding for the key in place,
or append a new binding at the end. -/
def mapSet {α : Type} : Cache α → String → Entry α → Cache α
  | [], key, e => [(key, e)]
  | (k, e0) :: rest, key, e =>
      if k = key then (key, e) :: rest else (k, e0) :: mapSet rest key e

/-- `Map.prototype.delete`: remove the binding for the key (a `Map`
holds at most one). -/
def mapDelete {α : Type} (c : Cache α) (key : String) : Cache α :=
  c.filter (fun p => p.1 != key)

namespace CacheService

/-- `CacheService.get` (cache.js lines 15-29).  Looks the key up; on a
miss returns `none`; on a hit whose entry satisfies
`Date.now() > item.expiresAt` deletes the entry and returns `none`;
otherwise returns the stored data.  The result pairs the returned value
with the store after the call (the side effect). -/
def get {α : Type} (now : Int) (c : Cache α) (key : String) :
    Option α × Cache α :=
  match mapGet c key with
  | none => (none, c)
  | some item =>
    if now > item.expiresAt then
      (none, mapDelete c key)
    else
      (some item.data, c)

/-- `CacheService.set` (cache.js lines 37-40): computes
`expiresAt = Date.now() + ttlMs` and stores the entry unconditionally.
No validation of `ttlMs` is performed in the source, so the model is a
total function of an arbitrary integer `ttlMs`. -/
def set {α : Type} (now : Int) (c : Cache α) (key : String) (data : α)
    (ttlMs : Int) : Cache α :=
  mapSet c key { data := data, expiresAt := now + ttlMs }

/-- `CacheService.delete` (cache.js lines 46-48). -/
def delete {α : Type} (c : Cache α) (key : String) : Cache α :=
  mapDelete c key

/-- `CacheService.clear` (cache.js lines 53-55). -/
def clear {α : Type} (_ : Cache α) : Cache α := []

/-- The record returned by `CacheService.getStats`. -/
structure Stats where
  totalEntries : Nat
  validEntries : Nat
  expiredEntries : Nat
  deriving Repr, DecidableEq

/-- `CacheService.getStats` (cache.js lines 61-79): one pass over the
entries, incrementing `expiredEntries` when `now > item.expiresAt` and
`validEntries` otherwise; `totalEntries` is the map size. -/
def getStats {α : Type} (now : Int) (c : Cache α) : Stats :=
  let counts := c.foldl
    (fun (acc : Nat × Nat) p =>
      if now > p.2.expiresAt then (acc.1, acc.2 + 1) else (acc.1 + 1, acc.2))
    (0, 0)
  { totalEntries := c.length
    validEntries := counts.1
    expiredEntries := counts.2 }

/-- `CacheService.cleanup` (cache.js lines 84-91): deletes every entry
with `now > item.expiresAt`. -/
def cleanup {α : Type} (now : Int) (c : Cache α) : Cache α :=
  c.filter (fun p => ! decide (now > p.2.expiresAt))

end CacheService

/-- The validity classification exactly as the specification states it
in its data-model section: an entry is valid iff `now < expiresAt`,
expired otherwise.  Kept separate from the code model so the two
classifications can be compared. -/
def specValid {α : Type} (now : Int) (e : Entry α) : Bool :=
  decide (now < e.expiresAt)

/-- The result of one call to `retryWithExponentialBackoff`
(retry.js lines 22-58): the settled outcome (`Except.ok` for a
resolution, `Except.error` for a rejection, whose payload is `none`
when the thrown JavaScript value is the uninitialized `lastError`,
i.e. `undefined`, and `some e` for a caught error `e`), the number of
times the wrapped operation was invoked, and the list of back-off
delays slept, in order. -/
structure RetryResult (ε α : Type) where
  outcome : Except (Option ε) α
  invocations : Nat
  delays : List Int
  deriving Repr

/-- The `for (let attempt = 1; attempt <= maxAttempts; attempt++)` loop
of retry.js lines 38-57.  `fn i` is the result of the i-th invocation
of the wrapped operation (1-based).  `fuel` counts the iterations still
allowed by the loop guard `attempt <= maxAttempts`; since `attempt`
starts at 1 and increments by 1, the loop runs exactly
`max maxAttempts 0` times, so the top-level call passes
`maxAttempts.toNat`.  When the fuel runs out the trailing
`throw lastError` on line 57 executes. -/
def retryGo {ε α : Type} (fn : Nat → Except ε α) (shouldRetry : ε → Bool)
    (maxAttempts baseDelay maxDelay : Int) :
    Nat → Nat → Option ε → List Int → RetryResult ε α
  | 0, attempt, lastError, delays =>
      { outcome := Except.error lastError
        invocations := attempt - 1
        delays := delays }
  | fuel + 1, attempt, _, delays =>
    match fn attempt with
    | Except.ok v =>
        { outcome := Except.ok v, invocations := attempt, delays := delays }
    | Except.error e =>
      if (attempt : Int) = maxAttempts ∨ shouldRetry e = false then
        { outcome := Except.error (some e)
          invocations := attempt
          delays := delays }
      else
        retryGo fn shouldRetry maxAttempts baseDelay maxDelay fuel
          (attempt + 1) (some e)
          (delays ++ [min (baseDelay * 2 ^ (attempt - 1)) maxDelay])

/-- `retryWithExponentialBackoff` (retry.js lines 22-58) with its
options passed explicitly (the source defaults are `maxAttempts = 3`,
`baseDelay = 1000`, `maxDelay = 10000` and the default classifier
modelled below as `defaultShouldRetry`). -/
def retryWithExponentialBackoff {ε α : Type} (fn : Nat → Except ε α)
    (shouldRetry : ε → Bool) (maxAttempts baseDelay maxDelay : Int) :
    RetryResult ε α :=
  retryGo fn shouldRetry maxAttempts baseDelay maxDelay maxAttempts.toNat 1
    none []

/-- The observable shape of a JavaScript error as the default classifier
inspects it: `status` models `error.response?.status` (absent when
`error.response` or its `status` is undefined) and `code` models
`error.code`. -/
structure JSError where
  status : Option Int
  code : Option String
  deriving Repr, DecidableEq

/-- The default `shouldRetry` of retry.js lines 27-33:
`error.response?.status >= 500 || error.code === 'ECONNABORTED' ||
error.code === 'ENOTFOUND' || error.code === 'ECONNRESET'`.  In
JavaScript `undefined >= 500` evaluates to `false`, which the `none`
branch reproduces. -/
def defaultShouldRetry (error : JSError) : Bool :=
  (match error.status with
   | some s => decide (s ≥ 500)
   | none => false)
  || error.code == some "ECONNABORTED"
  || error.code == some "ENOTFOUND"
  || error.code == some "ECONNRESET"

/-- A concrete test operation mirroring the repository's retry tests:
it fails with a (retryable) error on attempts 1 and 2 and succeeds on
attempt 3. -/
def flakyOp (i : Nat) : Except Nat Nat :=
  if i = 3 then Except.ok 99 else Except.error i

/-! ## Helper lemmas about the cache model -/

theorem mapGet_mapSet_self {α : Type} (c : Cache α) (key : String)
    (e : Entry α) : mapGet (mapSet c key e) key = some e := by
  induction c with
  | nil => simp [mapSet, mapGet]
  | cons hd tl ih =>
    obtain ⟨k, e0⟩ := hd
    by_cases h : k = key
    · simp [mapSet, h, mapGet]
    · simp [mapSet, h, mapGet, ih]

theorem mapSet_mem_self {α : Type} (c : Cache α) (key : String)
    (e : Entry α) : (key, e) ∈ mapSet c key e := by
  induction c with
  | nil => simp [mapSet]
  | cons hd tl ih =>
    obtain ⟨k, e0⟩ := hd
    by_cases h : k = key
    · simp [mapSet, h]
    · simp [mapSet, h]
      right
      exact ih

/-- Filtering preserves the first binding a lookup finds, provided that
binding passes the filter: the bindings before it carry other keys and
are skipped whether the filter keeps them or not. -/
theorem mapGet_filter {α : Type} (pred : String × Entry α → Bool)
    (c : Cache α) (key : String) (item : Entry α)
    (hfind : mapGet c key = some item) (hkeep : pred (key, item) = true) :
    mapGet (c.filter pred) key = some item := by
  induction c with
  | nil => simp [mapGet] at hfind
  | cons hd tl ih =>
    obtain ⟨k, e0⟩ := hd
    by_cases h : k = key
    · subst h
      rw [mapGet, if_pos rfl] at hfind
      obtain rfl : e0 = item := by injection hfind
      rw [List.filter_cons, if_pos hkeep, mapGet, if_pos rfl]
    · rw [mapGet, if_neg h] at hfind
      rw [List.filter_cons]
      by_cases hp : pred (k, e0)
      · rw [if_pos hp, mapGet, if_neg h]
        exact ih hfind
      · simp only [hp, if_neg]
        rw [if_neg (by simp [hp])]
        exact ih hfind

/-- `get` on a hit whose entry is strictly past its expiration instant:
the entry is deleted and the call reports absent. -/
theorem get_expired {α : Type} (now : Int) (c : Cache α) (key : String)
    (item : Entry α) (hfind : mapGet c key = some item)
    (hexp : item.expiresAt < now) :
    CacheService.get now c key = (none, mapDelete c key) := by
  unfold CacheService.get
  rw [hfind]
  simp [hexp]

/-- `get` on a hit whose entry has not strictly passed its expiration
instant: the stored data is returned and the store is unchanged. -/
theorem get_valid {α : Type} (now : Int) (c : Cache α) (key : String)
    (item : Entry α) (hfind : mapGet c key = some item)
    (hval : now ≤ item.expiresAt) :
    CacheService.get now c key = (some item.data, c) := by
  unfold CacheService.get
  rw [hfind]
  simp [not_lt.mpr hval]

/-- The single fold of `getStats` counts exactly the entries kept,
respectively dropped, by the `cleanup` classification. -/
theorem getStats_foldl {α : Type} (now : Int) (c : Cache α)
    (acc : Nat × Nat) :
    c.foldl
        (fun (acc : Nat × Nat) p =>
          if now > p.2.expiresAt then (acc.1, acc.2 + 1)
          else (acc.1 + 1, acc.2)) acc
      = (acc.1 + (c.filter (fun p => ! decide (now > p.2.expiresAt))).length,
         acc.2 + (c.filter (fun p => decide (now > p.2.expiresAt))).length) := by
  induction c generalizing acc with
  | nil => simp
  | cons hd tl ih =>
    by_cases h : hd.2.expiresAt < now
    · simp only [List.foldl_cons, List.filter_cons, ih]
      simp [Prod.ext_iff, h]
      omega
    · simp only [List.foldl_cons, List.filter_cons, ih]
      simp [Prod.ext_iff, h]
      omega

theorem getStats_eq {α : Type} (now : Int) (c : Cache α) :
    CacheService.getStats now c =
      { totalEntries := c.length
        validEntries :=
          (c.filter (fun p => ! decide (now > p.2.expiresAt))).length
        expiredEntries :=
          (c.filter (fun p => decide (now > p.2.expiresAt))).length } := by
  unfold CacheService.getStats
  rw [getStats_foldl]
  simp

theorem length_filter_not_add {β : Type} (p : β → Bool) (l : List β) :
    (l.filter (fun x => ! p x)).length + (l.filter p).length = l.length := by
  induction l with
  | nil => simp
  | cons hd tl ih =>
    by_cases h : p hd <;> simp [List.filter_cons, h] <;> omega

/-! ## Helper lemmas about the retry model -/

/-- The retry loop on an operation that fails with a retryable error on
every invocation: with `fuel` iterations left and the loop-counter
relation `attempt + fuel = maxAttempts + 1`, the loop runs its
remaining `fuel` iterations and surfaces the error of the last one. -/
theorem retryGo_allFail {ε α : Type} (errs : Nat → ε) (sr : ε → Bool)
    (N baseDelay maxDelay : Int) (hsr : ∀ i, sr (errs i) = true) :
    ∀ (fuel attempt : Nat) (lastError : Option ε) (delays : List Int),
    1 ≤ fuel → (attempt : Int) + fuel = N + 1 →
    (retryGo (fun i => (Except.error (errs i) : Except ε α)) sr N baseDelay
          maxDelay fuel attempt lastError delays).outcome
        = Except.error (some (errs (attempt + fuel - 1)))
    ∧ (retryGo (fun i => (Except.error (errs i) : Except ε α)) sr N baseDelay
          maxDelay fuel attempt lastError delays).invocations
        = attempt + fuel - 1 := by
  intro fuel
  induction fuel with
  | zero => intro attempt lastError delays h1 _; omega
  | succ f ih =>
    intro attempt lastError delays _ hinv
    by_cases hf : f = 0
    · subst hf
      have hA : (attempt : Int) = N := by push_cast at hinv ⊢; omega
      simp [retryGo, hA]
    · have hA : ¬ (attempt : Int) = N := by push_cast at hinv ⊢; omega
      have hcond : ¬ ((attempt : Int) = N ∨ sr (errs attempt) = false) := by
        simp [hA, hsr attempt]
      have hrec := ih (attempt + 1) (some (errs attempt))
        (delays ++ [min (baseDelay * 2 ^ (attempt - 1)) maxDelay])
        (by omega) (by push_cast at hinv ⊢; omega)
      have harith : attempt + 1 + f - 1 = attempt + (f + 1) - 1 := by omega
      simp only [retryGo, if_neg hcond]
      exact ⟨by rw [hrec.1, harith], by rw [hrec.2, harith]⟩

/-- Every back-off delay the loop ever sleeps is computed as
`min (baseDelay * 2 ^ (attempt - 1)) maxDelay` at the attempt it
follows, so the delay stored at position `j` (the delay slept before
attempt `j + 2`) equals `min (baseDelay * 2 ^ j) maxDelay`. -/
theorem retryGo_delays {ε α : Type} (fn : Nat → Except ε α) (sr : ε → Bool)
    (N baseDelay maxDelay : Int) :
    ∀ (fuel attempt : Nat) (lastError : Option ε) (delays : List Int),
    1 ≤ attempt →
    delays.length = attempt - 1 →
    (∀ j : Nat, j < delays.length →
        delays.getD j 0 = min (baseDelay * 2 ^ j) maxDelay) →
    ∀ j : Nat,
      j < (retryGo fn sr N baseDelay maxDelay fuel attempt
          lastError delays).delays.length →
      (retryGo fn sr N baseDelay maxDelay fuel attempt
          lastError delays).delays.getD j 0
        = min (baseDelay * 2 ^ j) maxDelay := by
  intro fuel
  induction fuel with
  | zero =>
    intro attempt lastError delays _ _ hP j hj
    simp only [retryGo] at hj ⊢
    exact hP j hj
  | succ f ih =>
    intro attempt lastError delays h1 hlen hP j hj
    cases hok : fn attempt with
    | ok v =>
      simp only [retryGo, hok] at hj ⊢
      exact hP j hj
    | error e =>
      by_cases hstop : (attempt : Int) = N ∨ sr e = false
      · simp only [retryGo, hok, if_pos hstop] at hj ⊢
        exact hP j hj
      · simp only [retryGo, hok, if_neg hstop] at hj ⊢
        refine ih (attempt + 1) (some e)
          (delays ++ [min (baseDelay * 2 ^ (attempt - 1)) maxDelay])
          (by omega)
          (by simp only [List.length_append, List.length_singleton, hlen]
              omega)
          ?_ j hj
        intro j2 hj2
        by_cases hlt : j2 < delays.length
        · rw [List.getD_append _ _ _ _ hlt]
          exact hP j2 hlt
        · have hj2e : j2 = delays.length := by
            simp only [List.length_append, List.length_singleton] at hj2
            omega
          subst hj2e
          rw [List.getD_append_right _ _ _ _ (le_refl _)]
          simp [hlen]

/-- The retry loop on a run that settles successfully: the settled
value is the result of the operation's final invocation, and exactly
one delay was slept before each attempt after the first, none after
the success. -/
theorem retryGo_ok {ε α : Type} (fn : Nat → Except ε α) (sr : ε → Bool)
    (N baseDelay maxDelay : Int) :
    ∀ (fuel attempt : Nat) (lastError : Option ε) (delays : List Int),
    1 ≤ attempt →
    delays.length = attempt - 1 →
    ∀ v : α,
      (retryGo fn sr N baseDelay maxDelay fuel attempt
          lastError delays).outcome = Except.ok v →
      fn (retryGo fn sr N baseDelay maxDelay fuel attempt
          lastError delays).invocations = Except.ok v
      ∧ (retryGo fn sr N baseDelay maxDelay fuel attempt
            lastError delays).delays.length + 1
          = (retryGo fn sr N baseDelay maxDelay fuel attempt
              lastError delays).invocations := by
  intro fuel
  induction fuel with
  | zero =>
    intro attempt lastError delays _ _ v hv
    simp only [retryGo] at hv
    exact Except.noConfusion hv
  | succ f ih =>
    intro attempt lastError delays h1 hlen v hv
    cases hok : fn attempt with
    | ok w =>
      simp only [retryGo, hok] at hv ⊢
      obtain rfl : w = v := by injection hv
      exact ⟨rfl, by omega⟩
    | error e =>
      by_cases hstop : (attempt : Int) = N ∨ sr e = false
      · simp only [retryGo, hok, if_pos hstop] at hv
        exact Except.noConfusion hv
      · simp only [retryGo, hok, if_neg hstop] at hv ⊢
        exact ih (attempt + 1) (some e)
          (delays ++ [min (baseDelay * 2 ^ (attempt - 1)) maxDelay])
          (by omega)
          (by simp only [List.length_append, List.length_singleton, hlen]
              omega)
          v hv

/-! ## Claim C1 -/

/-- Counterexample to C1.  C1 states that an entry whose expiration
instant has been reached (`now ≥ expiresAt`) is absent from `get`, and
in particular that an entry stored with `ttlMs = 0` is absent on any
read at or after its insertion instant.  The code tests
`Date.now() > item.expiresAt` strictly, so the entry stored at instant
100 with `ttlMs = 0` (hence `expiresAt = 100`) is still returned by a
`get` at instant 100. -/
theorem c1_counterexample :
    ¬ (CacheService.get 100
        (CacheService.set 100 ([] : Cache Nat) "k" 7 0) "k").1 = none := by
  decide

/-- C1 (amended): for every cache entry whose expiration instant has
strictly passed (`now > expiresAt`), `get(key)` reports absent and, as
a side effect, physically removes the entry from the backing store; in
particular an entry stored with `ttlMs = 0` is absent on any read
strictly after its insertion instant. -/
theorem c1_get_expired_removes {α : Type} :
    (∀ (now : Int) (c : Cache α) (key : String) (item : Entry α),
        mapGet c key = some item → item.expiresAt < now →
        CacheService.get now c key = (none, mapDelete c key))
    ∧ (∀ (setTime readTime : Int) (c : Cache α) (key : String) (v : α),
        setTime < readTime →
        CacheService.get readTime (CacheService.set setTime c key v 0) key
          = (none, mapDelete (CacheService.set setTime c key v 0) key)) := by
  refine ⟨fun now c key item hfind hexp => get_expired now c key item hfind hexp, ?_⟩
  intro setTime readTime c key v hlt
  have hfind := mapGet_mapSet_self c key (⟨v, setTime + 0⟩ : Entry α)
  exact get_expired readTime _ key _ hfind (by simpa using hlt)

/-- Witness for C1 at a concrete input: the entry for key "k" expired
at instant 100, and a `get` at instant 101 reports absent and removes
it. -/
theorem c1_witness :
    CacheService.get 101 [("k", (⟨7, 100⟩ : Entry Nat))] "k"
        = (none, mapDelete [("k", (⟨7, 100⟩ : Entry Nat))] "k")
    ∧ CacheService.get 101 (CacheService.set 100 ([] : Cache Nat) "k" 7 0) "k"
        = (none, mapDelete (CacheService.set 100 ([] : Cache Nat) "k" 7 0) "k") :=
  ⟨(c1_get_expired_removes).1 101 [("k", ⟨7, 100⟩)] "k" ⟨7, 100⟩ (by decide)
      (by decide),
   (c1_get_expired_removes).2 100 101 [] "k" 7 (by decide)⟩

/-! ## Claim C6 -/

/-- Counterexample to C6.  C6 states that `getStats` classifies each
physically present entry by the expiry invariant of the specification
(valid iff `now < expiresAt`).  At instant 100 the store holding one
entry with `expiresAt = 100` has no valid entry under that invariant,
yet `getStats` counts it as valid, because the code classifies by
`now > expiresAt` strictly. -/
theorem c6_counterexample :
    ¬ (CacheService.getStats 100 [("k", (⟨7, 100⟩ : Entry Nat))]).validEntries
        = (([("k", (⟨7, 100⟩ : Entry Nat))] : Cache Nat).filter
            (fun p => specValid 100 p.2)).length := by
  decide

/-- C6 (amended): for every cache state and every call instant,
`getStats()` classifies each physically present entry as valid iff
`now ≤ expiresAt` and expired iff `now > expiresAt` (the code's strict
comparison, which differs from the specification's invariant at the
boundary instant `now = expiresAt`), and satisfies
`totalEntries = validEntries + expiredEntries`, counting entries not
yet lazily reclaimed. -/
theorem c6_stats_partition {α : Type} (now : Int) (c : Cache α) :
    (CacheService.getStats now c).totalEntries
        = (CacheService.getStats now c).validEntries
            + (CacheService.getStats now c).expiredEntries
    ∧ (CacheService.getStats now c).validEntries
        = (c.filter (fun p => decide (now ≤ p.2.expiresAt))).length
    ∧ (CacheService.getStats now c).expiredEntries
        = (c.filter (fun p => decide (p.2.expiresAt < now))).length := by
  have hcong : (fun p : String × Entry α => ! decide (now > p.2.expiresAt))
      = (fun p : String × Entry α => decide (now ≤ p.2.expiresAt)) := by
    funext p
    rcases lt_or_le p.2.expiresAt now with h | h
    · simp [h, not_le.mpr h]
    · simp [not_lt.mpr h, h]
  refine ⟨?_, ?_, ?_⟩
  · rw [getStats_eq]
    exact (length_filter_not_add
      (fun p : String × Entry α => decide (now > p.2.expiresAt)) c).symm
  · rw [getStats_eq]
    simp only
    rw [hcong]
  · rw [getStats_eq]

/-! ## Claim C7 -/

/-- Counterexample to C7.  C7 states that a single `cleanup` run removes
exactly the entries classified expired by the specification's invariant
(expired iff `now ≥ expiresAt`).  At instant 100 the entry with
`expiresAt = 100` is expired under that invariant, so the claim demands
it be removed, but the code's `cleanup` keeps it because its comparison
is strict. -/
theorem c7_counterexample :
    ¬ CacheService.cleanup 100 [("k", (⟨7, 100⟩ : Entry Nat))]
        = ([("k", (⟨7, 100⟩ : Entry Nat))] : Cache Nat).filter
            (fun p => specValid 100 p.2) := by
  decide

/-- C7 (amended): `cleanup()` is idempotent at a fixed instant: run
twice in a row with no intervening `set`, the second run changes
nothing and `getStats()` returns the same result both times; a single
run removes exactly the entries with `now > expiresAt` (the code's
strict expiry classification) and leaves every entry with
`now ≤ expiresAt` untouched, so `get` on such a key still returns its
value afterwards. -/
theorem c7_cleanup_idempotent {α : Type} (now : Int) (c : Cache α) :
    CacheService.cleanup now (CacheService.cleanup now c)
        = CacheService.cleanup now c
    ∧ CacheService.getStats now
          (CacheService.cleanup now (CacheService.cleanup now c))
        = CacheService.getStats now (CacheService.cleanup now c)
    ∧ (∀ p : String × Entry α,
          p ∈ CacheService.cleanup now c ↔ p ∈ c ∧ now ≤ p.2.expiresAt)
    ∧ (∀ (key : String) (item : Entry α),
          mapGet c key = some item → now ≤ item.expiresAt →
          (CacheService.get now (CacheService.cleanup now c) key).1
            = some item.data) := by
  have hidem : CacheService.cleanup now (CacheService.cleanup now c)
      = CacheService.cleanup now c := by
    unfold CacheService.cleanup
    rw [List.filter_filter]
    simp
  refine ⟨hidem, by rw [hidem], ?_, ?_⟩
  · intro p
    unfold CacheService.cleanup
    rw [List.mem_filter]
    constructor
    · rintro ⟨hmem, hpred⟩
      refine ⟨hmem, ?_⟩
      simp only [Bool.not_eq_true', decide_eq_false_iff_not, not_lt] at hpred
      exact hpred
    · rintro ⟨hmem, hle⟩
      refine ⟨hmem, ?_⟩
      simp only [Bool.not_eq_true', decide_eq_false_iff_not, not_lt]
      exact hle
  · intro key item hfind hval
    have hkeep : (fun p : String × Entry α =>
        ! decide (now > p.2.expiresAt)) (key, item) = true := by
      simp only [Bool.not_eq_true', decide_eq_false_iff_not, not_lt]
      exact hval
    have hfind2 : mapGet (CacheService.cleanup now c) key = some item := by
      unfold CacheService.cleanup
      exact mapGet_filter _ c key item hfind hkeep
    rw [get_valid now _ key item hfind2 hval]

/-- Witness for C7 at a concrete input: at instant 100, cleaning the
two-entry store removes the expired entry and a `get` on the valid key
"a" still returns its value. -/
theorem c7_witness :
    (CacheService.get 100
        (CacheService.cleanup 100
          [("a", (⟨1, 200⟩ : Entry Nat)), ("b", ⟨2, 50⟩)]) "a").1
      = some 1 :=
  (c7_cleanup_idempotent 100
    [("a", (⟨1, 200⟩ : Entry Nat)), ("b", ⟨2, 50⟩)]).2.2.2 "a" ⟨1, 200⟩
    (by decide) (by decide)

/-! ## Claim C8 -/

/-- C8: for every key, value and TTL `t > 0`, calling `get` immediately
after `set` (no time elapsed, same `now`) returns the value; `set`
stores or overwrites the entry unconditionally with
`expiresAt = now + t`, whatever the prior state held for that key. -/
theorem c8_set_get_roundtrip {α : Type} (now : Int) (c : Cache α)
    (key : String) (v : α) (t : Int) (ht : 0 < t) :
    mapGet (CacheService.set now c key v t) key = some ⟨v, now + t⟩
    ∧ (CacheService.get now (CacheService.set now c key v t) key).1
        = some v := by
  have hfind := mapGet_mapSet_self c key (⟨v, now + t⟩ : Entry α)
  refine ⟨hfind, ?_⟩
  unfold CacheService.set
  rw [get_valid now _ key _ hfind (show now ≤ now + t by omega)]

/-- Witness for C8 at a concrete input: overwriting an existing entry
for "k" at instant 100 with TTL 60000 and reading it back at the same
instant. -/
theorem c8_witness :
    mapGet (CacheService.set 100 [("k", (⟨1, 5⟩ : Entry Nat))] "k" 7 60000) "k"
        = some ⟨7, 60100⟩
    ∧ (CacheService.get 100
        (CacheService.set 100 [("k", (⟨1, 5⟩ : Entry Nat))] "k" 7 60000)
        "k").1 = some 7 := by
  have h := c8_set_get_roundtrip 100 [("k", (⟨1, 5⟩ : Entry Nat))] "k" 7 60000
    (by decide)
  simpa using h

/-! ## Claim C9 -/

/-- C9: `set` performs no validation of `ttlMs` (in the model it is a
total function of an arbitrary integer `ttlMs`, as the source raises
nothing): the entry is always stored with `expiresAt = now + ttlMs`,
and a negative `ttlMs` yields an entry whose `expiresAt` lies in the
past, so every `get` at or after the insertion instant reports absent,
`cleanup` removes it, and `getStats` counts it among the expired
entries. -/
theorem c9_negative_ttl {α : Type} (now later t : Int) (c : Cache α)
    (key : String) (v : α) (ht : t < 0) (hle : now ≤ later) :
    mapGet (CacheService.set now c key v t) key = some ⟨v, now + t⟩
    ∧ (CacheService.get later (CacheService.set now c key v t) key).1 = none
    ∧ (key, (⟨v, now + t⟩ : Entry α))
        ∉ CacheService.cleanup later (CacheService.set now c key v t)
    ∧ 1 ≤ (CacheService.getStats later
            (CacheService.set now c key v t)).expiredEntries := by
  have hfind := mapGet_mapSet_self c key (⟨v, now + t⟩ : Entry α)
  have hexp : (⟨v, now + t⟩ : Entry α).expiresAt < later := by
    simp only
    omega
  refine ⟨hfind, ?_, ?_, ?_⟩
  · unfold CacheService.set
    rw [get_expired later _ key _ hfind hexp]
  · intro hmem
    unfold CacheService.cleanup at hmem
    rw [List.mem_filter] at hmem
    have := hmem.2
    simp only [Bool.not_eq_true', decide_eq_false_iff_not, not_lt] at this
    omega
  · rw [getStats_eq]
    simp only
    have hmem : (key, (⟨v, now + t⟩ : Entry α))
        ∈ (CacheService.set now c key v t).filter
            (fun p => decide (later > p.2.expiresAt)) := by
      rw [List.mem_filter]
      exact ⟨mapSet_mem_self c key _, by simpa using hexp⟩
    have := List.length_pos_of_mem hmem
    omega

/-- Witness for C9 at a concrete input: `ttlMs = -5` stored at instant
100 and observed at instant 100. -/
theorem c9_witness :
    mapGet (CacheService.set 100 ([] : Cache Nat) "k" 7 (-5)) "k"
        = some ⟨7, 95⟩
    ∧ (CacheService.get 100
        (CacheService.set 100 ([] : Cache Nat) "k" 7 (-5)) "k").1 = none
    ∧ ("k", (⟨7, 95⟩ : Entry Nat))
        ∉ CacheService.cleanup 100 (CacheService.set 100 ([] : Cache Nat) "k" 7 (-5))
    ∧ 1 ≤ (CacheService.getStats 100
            (CacheService.set 100 ([] : Cache Nat) "k" 7 (-5))).expiredEntries := by
  have h := c9_negative_ttl 100 100 (-5) ([] : Cache Nat) "k" 7
    (by decide) (by decide)
  simpa using h

/-! ## Claim C2 -/

/-- C2: for every `N ≥ 1`, running the retry executor on an operation
that fails on every attempt with an error the `shouldRetry` classifier
accepts, with `maxAttempts = N`, invokes the operation exactly `N`
times and makes the executor reject with exactly the error produced by
the `N`-th (final) invocation. -/
theorem c2_exhausted_attempts {ε α : Type} (errs : Nat → ε) (sr : ε → Bool)
    (baseDelay maxDelay : Int) (N : Nat) (hN : 1 ≤ N)
    (hsr : ∀ i, sr (errs i) = true) :
    (retryWithExponentialBackoff
        (fun i => (Except.error (errs i) : Except ε α)) sr (N : Int)
        baseDelay maxDelay).outcome = Except.error (some (errs N))
    ∧ (retryWithExponentialBackoff
        (fun i => (Except.error (errs i) : Except ε α)) sr (N : Int)
        baseDelay maxDelay).invocations = N := by
  unfold retryWithExponentialBackoff
  rw [Int.toNat_natCast]
  have h := retryGo_allFail (α := α) errs sr (N : Int) baseDelay maxDelay hsr
    N 1 none [] hN (by push_cast; omega)
  have harith : 1 + N - 1 = N := by omega
  rw [harith] at h
  exact h

/-- Witness for C2 at a concrete input: three attempts, every one
failing with a retryable error; the third error surfaces. -/
theorem c2_witness :
    (retryWithExponentialBackoff
        (fun i => (Except.error i : Except Nat Nat)) (fun _ => true)
        ((3 : Nat) : Int) 50 200).outcome = Except.error (some 3)
    ∧ (retryWithExponentialBackoff
        (fun i => (Except.error i : Except Nat Nat)) (fun _ => true)
        ((3 : Nat) : Int) 50 200).invocations = 3 :=
  c2_exhausted_attempts (fun i => i) (fun _ => true) 50 200 3 (by decide)
    (fun _ => rfl)

/-! ## Claim C3 -/

/-- C3: for every `i ≥ 2`, the delay the retry executor sleeps before
attempt `i` (the delay stored at position `i - 2` of the run's delay
trace) equals `min (baseDelay * 2 ^ (i - 2)) maxDelay`, the clamp by
`maxDelay` applied after computing the exponential term; on success of
any attempt the settled value is the result of that final invocation
and no further delay follows it (one delay per attempt after the
first, so the trace is one shorter than the invocation count). -/
theorem c3_backoff_delays {ε α : Type} (fn : Nat → Except ε α)
    (sr : ε → Bool) (maxAttempts baseDelay maxDelay : Int) :
    (∀ i : Nat, 2 ≤ i →
        i - 2 < (retryWithExponentialBackoff fn sr maxAttempts baseDelay
            maxDelay).delays.length →
        (retryWithExponentialBackoff fn sr maxAttempts baseDelay
            maxDelay).delays.getD (i - 2) 0
          = min (baseDelay * 2 ^ (i - 2)) maxDelay)
    ∧ (∀ v : α,
        (retryWithExponentialBackoff fn sr maxAttempts baseDelay
            maxDelay).outcome = Except.ok v →
        fn (retryWithExponentialBackoff fn sr maxAttempts baseDelay
            maxDelay).invocations = Except.ok v
        ∧ (retryWithExponentialBackoff fn sr maxAttempts baseDelay
              maxDelay).delays.length + 1
            = (retryWithExponentialBackoff fn sr maxAttempts baseDelay
                maxDelay).invocations) := by
  constructor
  · intro i _ hj
    exact retryGo_delays fn sr maxAttempts baseDelay maxDelay
      maxAttempts.toNat 1 none [] (by omega) (by simp)
      (fun j hj2 => absurd hj2 (by simp)) (i - 2) hj
  · intro v hv
    exact retryGo_ok fn sr maxAttempts baseDelay maxDelay
      maxAttempts.toNat 1 none [] (by omega) (by simp) v hv

/-- Witness for C3 at a concrete input: the operation fails with a
retryable error twice and succeeds on attempt 3 with `baseDelay = 50`
and `maxDelay = 200`; the delay before attempt 2 is
`min (50 * 2 ^ 0) 200 = 50`, the success value is returned and exactly
two delays were slept for three invocations. -/
theorem c3_witness :
    (retryWithExponentialBackoff flakyOp (fun _ => true)
        5 50 200).delays.getD (2 - 2) 0 = min (50 * 2 ^ (2 - 2)) 200
    ∧ flakyOp (retryWithExponentialBackoff flakyOp (fun _ => true)
        5 50 200).invocations = Except.ok 99
    ∧ (retryWithExponentialBackoff flakyOp (fun _ => true)
          5 50 200).delays.length + 1
        = (retryWithExponentialBackoff flakyOp (fun _ => true)
            5 50 200).invocations := by
  refine ⟨?_, ?_, ?_⟩
  · exact (c3_backoff_delays flakyOp (fun _ => true) 5 50 200).1 2
      (by decide) (by decide)
  · exact ((c3_backoff_delays flakyOp (fun _ => true) 5 50 200).2 99
      (by rfl)).1
  · exact ((c3_backoff_delays flakyOp (fun _ => true) 5 50 200).2 99
      (by rfl)).2

/-! ## Claim C4 -/

/-- C4: for every operation whose first failure is classified
non-retryable by `shouldRetry`, the retry executor invokes the
operation exactly once regardless of `maxAttempts` (within its
`maxAttempts ≥ 1` precondition), sleeps no delay, and the error it
rejects with is the caught error value itself, never wrapped or
replaced (in the model, the rejection payload `some e` carries the
original `e` untouched). -/
theorem c4_nonretryable_once {ε α : Type} (fn : Nat → Except ε α)
    (sr : ε → Bool) (maxAttempts baseDelay maxDelay : Int) (e : ε)
    (hN : 1 ≤ maxAttempts) (h1 : fn 1 = Except.error e)
    (hsr : sr e = false) :
    retryWithExponentialBackoff fn sr maxAttempts baseDelay maxDelay
      = { outcome := Except.error (some e), invocations := 1,
          delays := [] } := by
  unfold retryWithExponentialBackoff
  obtain ⟨k, hk⟩ : ∃ k, maxAttempts.toNat = k + 1 :=
    ⟨maxAttempts.toNat - 1, by omega⟩
  rw [hk]
  simp only [retryGo, h1, if_pos (Or.inr hsr)]

/-- Witness for C4 at a concrete input: `maxAttempts = 5`, first
invocation fails with error 42 which the classifier rejects. -/
theorem c4_witness :
    retryWithExponentialBackoff
        (fun i => (Except.error (40 + i) : Except Nat Nat))
        (fun _ => false) 5 50 200
      = { outcome := Except.error (some 41), invocations := 1,
          delays := [] } :=
  c4_nonretryable_once (fun i => (Except.error (40 + i) : Except Nat Nat))
    (fun _ => false) 5 50 200 41 (by decide) rfl rfl

/-! ## Claim C5 -/

/-- C5: the default `shouldRetry` classifier returns `true` for an
error iff the error carries an HTTP status `≥ 500`, or the timeout
code `ECONNABORTED`, or the network-resolution code `ENOTFOUND`, or
the connection-reset code `ECONNRESET`; in particular it returns
`false` for an error whose status is a client error (4xx) and whose
code is none of those, and for any error matching none of the
signatures. -/
theorem c5_default_classifier (e : JSError) :
    (defaultShouldRetry e = true ↔
        ((∃ s : Int, e.status = some s ∧ 500 ≤ s)
          ∨ e.code = some "ECONNABORTED"
          ∨ e.code = some "ENOTFOUND"
          ∨ e.code = some "ECONNRESET"))
    ∧ (∀ s : Int, e.status = some s → 400 ≤ s → s < 500 →
        e.code ≠ some "ECONNABORTED" → e.code ≠ some "ENOTFOUND" →
        e.code ≠ some "ECONNRESET" → defaultShouldRetry e = false) := by
  obtain ⟨st, cd⟩ := e
  constructor
  · unfold defaultShouldRetry
    cases st with
    | none => simp [or_assoc]
    | some s => simp [ge_iff_le, or_assoc]
  · intro s hs h400 h500 hc1 hc2 hc3
    unfold defaultShouldRetry
    simp only at hs
    subst hs
    simp only at hc1 hc2 hc3 ⊢
    simp [hc1, hc2, hc3, ge_iff_le, show ¬ (500 ≤ s) by omega]

/-- Witness for C5 at concrete inputs: a bare 404 client error is not
retried, a bare 503 server error is. -/
theorem c5_witness :
    defaultShouldRetry { status := some 404, code := none } = false
    ∧ defaultShouldRetry { status := some 503, code := none } = true :=
  ⟨(c5_default_classifier { status := some 404, code := none }).2 404 rfl
      (by decide) (by decide) (by decide) (by decide) (by decide),
   (c5_default_classifier { status := some 503, code := none }).1.mpr
      (Or.inl ⟨503, rfl, by decide⟩)⟩

/-! ## Claim C10 -/

/-- C10: if the retry executor is called with `maxAttempts ≤ 0`
(violating the `maxAttempts ≥ 1` precondition), the `attempt` loop
body never executes, so the operation is never invoked and the
trailing `throw lastError` rethrows the uninitialized `lastError`: the
promise rejects with the `undefined` value (modelled as the rejection
payload `none`) rather than an error object. -/
theorem c10_no_attempts {ε α : Type} (fn : Nat → Except ε α)
    (sr : ε → Bool) (maxAttempts baseDelay maxDelay : Int)
    (hN : maxAttempts ≤ 0) :
    retryWithExponentialBackoff fn sr maxAttempts baseDelay maxDelay
      = { outcome := Except.error (none : Option ε), invocations := 0,
          delays := [] } := by
  unfold retryWithExponentialBackoff
  have h0 : maxAttempts.toNat = 0 := by omega
  rw [h0]
  rfl

/-- Witness for C10 at a concrete input: `maxAttempts = 0` on an
operation that would succeed if it were ever invoked. -/
theorem c10_witness :
    retryWithExponentialBackoff (fun _ => (Except.ok 7 : Except Nat Nat))
        (fun _ => true) 0 50 200
      = { outcome := Except.error (none : Option Nat), invocations := 0,
          delays := [] } :=
  c10_no_attempts (fun _ => (Except.ok 7 : Except Nat Nat))
    (fun _ => true) 0 50 200 (by decide)

end WeatherCache
